import Mathlib

/-!
Verification of the scroll-transform engine, neural-network simulation and
pointer-interaction logic of the 3D brain portfolio (src/js/main.js,
src/js/brain-hero.js, src/js/config.js).

The JavaScript number arithmetic is embedded over `ℚ`; comparisons against
Euclidean distances (which involve square roots) are embedded by the
equivalent squared-distance comparisons, and bridging lemmas relate them to
the real Euclidean distance via `Real.sqrt`.
-/

/-! ### Scroll Transform Engine (src/js/main.js) -/

/-- `clamp x lo hi = max (min x hi) lo`, the clamp operation the spec refers to. -/
def clamp (x lo hi : ℚ) : ℚ := max (min x hi) lo

/-- Embedding of `updateTargetProgress` (main.js lines 332-343, non-mobile path):
`targetProgress = Math.min(scrollY / (Math.max(heroHeight, 1) * 0.7), 1)` followed by
`targetProgress = Math.max(targetProgress, 0)`. -/
def updateTargetProgress (scrollY heroHeight : ℚ) : ℚ :=
  max (min (scrollY / (max heroHeight 1 * (7/10))) 1) 0

/-- Embedding of the per-frame smoothing step of `animateBrain`
(main.js lines 350-357): `diff = targetProgress - currentProgress`;
if `|diff| < 0.0005` snap to the target, else `currentProgress += diff * 0.1`. -/
def advanceStep (targetProgress currentProgress : ℚ) : ℚ :=
  let diff := targetProgress - currentProgress
  if |diff| < 5/10000 then targetProgress
  else currentProgress + diff * (1/10)

/-- `config.miniBrain.targetProgressThreshold` (src/js/config.js line 101). -/
def targetProgressThreshold : ℚ := 85/100

/-- Embedding of the mode-switch decision at the end of `animateBrain`
(main.js lines 471-484): the body class `brain-mode-mini` is present after the
frame iff `targetProgress >= config.miniBrain.targetProgressThreshold`.
The smoothed `currentProgress` is in scope during the frame but unused here. -/
def animateBrainMiniClass (targetProgress _currentProgress : ℚ) : Bool :=
  decide (targetProgressThreshold ≤ targetProgress)

/-- A screen-space rectangle `{x, y, width, height}` in pixels. -/
@[ext]
structure Rect where
  x : ℚ
  y : ℚ
  width : ℚ
  height : ℚ
  deriving DecidableEq, Repr

/-- Anchor/offset configuration `config.miniBrain.position` consumed by
`animateBrain` (`anchorX`, `anchorY`, `offsetX`, `offsetY`). -/
structure MiniPosConfig where
  anchorX : String
  anchorY : String
  offsetX : ℚ
  offsetY : ℚ

/-- `endSize = Math.max(Math.min(maxSize, viewportWidth * 0.25), minSize)`
(main.js line 378). -/
def endSizeOf (minSize maxSize vw : ℚ) : ℚ :=
  max (min maxSize (vw * (1/4))) minSize

/-- Docked x-center: `desiredBrainX` (main.js lines 381-387). -/
def desiredBrainX (pos : MiniPosConfig) (endSize vw : ℚ) : ℚ :=
  if pos.anchorX = "left" then endSize / 2 + pos.offsetX
  else vw - endSize / 2 + pos.offsetX

/-- Docked y-center: `desiredBrainY` (main.js lines 390-396). -/
def desiredBrainY (pos : MiniPosConfig) (endSize vh : ℚ) : ℚ :=
  if pos.anchorY = "bottom" then vh - endSize / 2 + pos.offsetY
  else endSize / 2 + pos.offsetY

/-- Embedding of the viewport-rectangle derivation in `animateBrain`
(main.js lines 365-411): sizes and the brain center are interpolated linearly
in `t = currentProgress`, then the top-left corner is recovered from the
center and size. -/
def deriveViewportRect (vw vh minSize maxSize : ℚ) (pos : MiniPosConfig)
    (t : ℚ) : Rect :=
  let startW := vw
  let startH := vh
  let startBrainCenterX := vw / 2
  let startBrainCenterY := vh / 2
  let endSize := endSizeOf minSize maxSize vw
  let dX := desiredBrainX pos endSize vw
  let dY := desiredBrainY pos endSize vh
  let currentW := startW + (endSize - startW) * t
  let currentH := startH + (endSize - startH) * t
  let currentBrainCenterX := startBrainCenterX + (dX - startBrainCenterX) * t
  let currentBrainCenterY := startBrainCenterY + (dY - startBrainCenterY) * t
  { x := currentBrainCenterX - currentW / 2
    y := currentBrainCenterY - currentH / 2
    width := currentW
    height := currentH }

/-! ### Theorems for the scroll engine claims -/

/-- C1: the scroll handler computes exactly
`clamp(scrollY / (max(heroHeight,1) * 0.7), 0, 1)`, hence the result is always
in `[0,1]`, and at `heroHeight = 1080`, `scrollY = 378` it is exactly `1/2`. -/
theorem updateTargetProgress_clamped (scrollY heroHeight : ℚ) :
    updateTargetProgress scrollY heroHeight
      = clamp (scrollY / (max heroHeight 1 * (7/10))) 0 1 ∧
    0 ≤ updateTargetProgress scrollY heroHeight ∧
    updateTargetProgress scrollY heroHeight ≤ 1 ∧
    updateTargetProgress 378 1080 = 1/2 := by
  refine ⟨rfl, le_max_right _ _, ?_, by norm_num [updateTargetProgress]⟩
  have h1 : min (scrollY / (max heroHeight 1 * (7/10))) 1 ≤ 1 := min_le_right _ _
  exact max_le h1 (by norm_num)

/-- Auxiliary: one smoothing step never leaves the closed interval spanned by
the previous value and the target. -/
theorem advanceStep_between (t c : ℚ) :
    min c t ≤ advanceStep t c ∧ advanceStep t c ≤ max c t := by
  unfold advanceStep
  dsimp only
  split
  · exact ⟨min_le_right _ _, le_max_right _ _⟩
  · constructor
    · rcases le_total c t with h | h
      · have : c ≤ c + (t - c) * (1/10) := by nlinarith
        exact le_trans (min_le_left _ _) this
      · have : t ≤ c + (t - c) * (1/10) := by nlinarith
        exact le_trans (min_le_right _ _) this
    · rcases le_total c t with h | h
      · have : c + (t - c) * (1/10) ≤ t := by nlinarith
        exact le_trans this (le_max_right _ _)
      · have : c + (t - c) * (1/10) ≤ c := by nlinarith
        exact le_trans this (le_max_left _ _)

/-- Auxiliary: each step shrinks the distance to the target by at least the
factor `9/10`. -/
theorem advanceStep_dist_le (t c : ℚ) :
    |t - advanceStep t c| ≤ (9/10) * |t - c| := by
  unfold advanceStep
  dsimp only
  split
  · rw [sub_self, abs_zero]
    positivity
  · have : t - (c + (t - c) * (1/10)) = (9/10) * (t - c) := by ring
    rw [this, abs_mul, abs_of_nonneg (by norm_num : (0:ℚ) ≤ 9/10)]

/-- Auxiliary: distance after `n` steps is at most `(9/10)^n` times the
initial distance. -/
theorem advanceStep_iter_dist_le (t c : ℚ) (n : ℕ) :
    |t - (advanceStep t)^[n] c| ≤ (9/10)^n * |t - c| := by
  induction n generalizing c with
  | zero => simp
  | succ k ih =>
    rw [Function.iterate_succ_apply]
    calc |t - (advanceStep t)^[k] (advanceStep t c)|
        ≤ (9/10)^k * |t - advanceStep t c| := ih (advanceStep t c)
      _ ≤ (9/10)^k * ((9/10) * |t - c|) := by
          have := advanceStep_dist_le t c
          have hp : (0:ℚ) ≤ (9/10)^k := by positivity
          nlinarith [abs_nonneg (t - advanceStep t c)]
      _ = (9/10)^(k+1) * |t - c| := by ring

/-- Auxiliary: a step from a point within the snap epsilon lands exactly on
the target, so the target is absorbing. -/
theorem advanceStep_snap (t c : ℚ) (h : |t - c| < 5/10000) :
    advanceStep t c = t := by
  unfold advanceStep
  simp [h]

/-- C2: for every target `t` and start `c`, the per-frame smoothing step
strictly decreases `|t - current|` whenever `current ≠ t`, keeps the new value
between the previous value and the target (hence inside `[0,1]` when both
endpoints are), and iterating it reaches `current = t` exactly, permanently,
after some finite number of steps. -/
theorem advanceStep_convergence (t c : ℚ) :
    (c ≠ t → |t - advanceStep t c| < |t - c|) ∧
    (min c t ≤ advanceStep t c ∧ advanceStep t c ≤ max c t) ∧
    (0 ≤ c → c ≤ 1 → 0 ≤ t → t ≤ 1 →
      0 ≤ advanceStep t c ∧ advanceStep t c ≤ 1) ∧
    (∃ N : ℕ, ∀ n : ℕ, N ≤ n → (advanceStep t)^[n] c = t) := by
  refine ⟨?_, advanceStep_between t c, ?_, ?_⟩
  · intro hne
    have habs : 0 < |t - c| := abs_pos.mpr (sub_ne_zero.mpr (fun h => hne h.symm))
    calc |t - advanceStep t c| ≤ (9/10) * |t - c| := advanceStep_dist_le t c
      _ < 1 * |t - c| := by nlinarith
      _ = |t - c| := one_mul _
  · intro hc0 hc1 ht0 ht1
    obtain ⟨hlo, hhi⟩ := advanceStep_between t c
    exact ⟨le_trans (le_min hc0 ht0) hlo, le_trans hhi (max_le hc1 ht1)⟩
  · -- find n with (9/10)^n * |t - c| < epsilon, then one more step snaps
    have heps : (0:ℚ) < (5/10000) / (|t - c| + 1) := by positivity
    obtain ⟨n, hn⟩ := exists_pow_lt_of_lt_one heps (by norm_num : (9:ℚ)/10 < 1)
    have hdist : |t - (advanceStep t)^[n] c| < 5/10000 := by
      have h1 := advanceStep_iter_dist_le t c n
      have hpos : (0:ℚ) < |t - c| + 1 := by positivity
      have hlt : (9/10:ℚ)^n * (|t - c| + 1) < 5/10000 :=
        (lt_div_iff₀ hpos).mp hn
      have habs : (0:ℚ) ≤ |t - c| := abs_nonneg _
      nlinarith [pow_nonneg (by norm_num : (0:ℚ) ≤ 9/10) n]
    refine ⟨n + 1, ?_⟩
    intro m hm
    -- first show step n+1 hits t, then stability
    have hhit : (advanceStep t)^[n+1] c = t := by
      rw [Function.iterate_succ_apply', advanceStep_snap t _ hdist]
    have hstay : ∀ k : ℕ, (advanceStep t)^[n+1+k] c = t := by
      intro k
      induction k with
      | zero => simpa using hhit
      | succ j ih =>
        have : n+1+(j+1) = (n+1+j) + 1 := by ring
        rw [this, Function.iterate_succ_apply', ih,
          advanceStep_snap t t (by norm_num)]
    obtain ⟨k, rfl⟩ := Nat.exists_eq_add_of_le hm
    exact hstay k

/-- C2 witness: at target `1/2` from start `0`, the first step strictly
decreases the distance, and the iteration reaches the target. -/
theorem advanceStep_convergence_witness :
    |((1:ℚ)/2) - advanceStep (1/2) 0| < |((1:ℚ)/2) - 0| :=
  (advanceStep_convergence (1/2) 0).1 (by norm_num)

/-- C3: the body class `brain-mode-mini` (RETURN_BUTTON mode) is set after a
frame iff the most recent `targetProgress` is at least the configured
threshold `0.85`; the decision ignores the smoothed `currentProgress`; and in
successive frames with `targetProgress = 0.84` then `0.86` the mode flips from
NAVIGATOR to RETURN_BUTTON exactly at the second frame. -/
theorem animateBrainMiniClass_spec (tp c c' : ℚ) :
    (animateBrainMiniClass tp c = true ↔ targetProgressThreshold ≤ tp) ∧
    animateBrainMiniClass tp c = animateBrainMiniClass tp c' ∧
    animateBrainMiniClass (84/100) c = false ∧
    animateBrainMiniClass (86/100) c = true := by
  refine ⟨by simp [animateBrainMiniClass], rfl, ?_, ?_⟩ <;>
    simp [animateBrainMiniClass, targetProgressThreshold] <;> norm_num

/-- `x` lies strictly between `a` and `b`. -/
def strictlyBetween (a b x : ℚ) : Prop := min a b < x ∧ x < max a b

/-- The fully-docked corner rectangle as the spec describes it: size
`clamp(windowWidth * 0.25, minSize, maxSize)`, centered at the configured
anchor corner plus offsets. -/
def dockedRect (vw vh minSize maxSize : ℚ) (pos : MiniPosConfig) : Rect :=
  let size := clamp (vw * (1/4)) minSize maxSize
  { x := desiredBrainX pos size vw - size / 2
    y := desiredBrainY pos size vh - size / 2
    width := size
    height := size }

/-- Auxiliary: a linear interpolation `a + (b - a) * t` is strictly between
its endpoints for `0 < t < 1` when the endpoints differ. -/
theorem lerp_strictlyBetween (a b t : ℚ) (h0 : 0 < t) (h1 : t < 1)
    (hne : a ≠ b) : strictlyBetween a b (a + (b - a) * t) := by
  rcases lt_or_gt_of_ne hne with h | h
  · rw [strictlyBetween, min_eq_left h.le, max_eq_right h.le]
    constructor <;> nlinarith
  · rw [strictlyBetween, min_eq_right h.le, max_eq_left h.le]
    constructor <;> nlinarith

/-- Auxiliary: the code's `endSize` equals the spec's
`clamp(windowWidth * 0.25, minSize, maxSize)`. -/
theorem endSizeOf_eq_clamp (minSize maxSize vw : ℚ) :
    endSizeOf minSize maxSize vw = clamp (vw * (1/4)) minSize maxSize := by
  rw [endSizeOf, clamp, min_comm]

/-- C4: the derived viewport rectangle is the full window at `t = 0`, the
docked corner rectangle at `t = 1`, and for `0 < t < 1` each component is
strictly between its two extreme values whenever those extremes differ. -/
theorem deriveViewportRect_spec (vw vh minSize maxSize : ℚ)
    (pos : MiniPosConfig) (t : ℚ) (h0 : 0 < t) (h1 : t < 1) :
    deriveViewportRect vw vh minSize maxSize pos 0
        = { x := 0, y := 0, width := vw, height := vh } ∧
    deriveViewportRect vw vh minSize maxSize pos 1
        = dockedRect vw vh minSize maxSize pos ∧
    ((deriveViewportRect vw vh minSize maxSize pos 0).x
        ≠ (deriveViewportRect vw vh minSize maxSize pos 1).x →
      strictlyBetween (deriveViewportRect vw vh minSize maxSize pos 0).x
        (deriveViewportRect vw vh minSize maxSize pos 1).x
        (deriveViewportRect vw vh minSize maxSize pos t).x) ∧
    ((deriveViewportRect vw vh minSize maxSize pos 0).y
        ≠ (deriveViewportRect vw vh minSize maxSize pos 1).y →
      strictlyBetween (deriveViewportRect vw vh minSize maxSize pos 0).y
        (deriveViewportRect vw vh minSize maxSize pos 1).y
        (deriveViewportRect vw vh minSize maxSize pos t).y) ∧
    ((deriveViewportRect vw vh minSize maxSize pos 0).width
        ≠ (deriveViewportRect vw vh minSize maxSize pos 1).width →
      strictlyBetween (deriveViewportRect vw vh minSize maxSize pos 0).width
        (deriveViewportRect vw vh minSize maxSize pos 1).width
        (deriveViewportRect vw vh minSize maxSize pos t).width) ∧
    ((deriveViewportRect vw vh minSize maxSize pos 0).height
        ≠ (deriveViewportRect vw vh minSize maxSize pos 1).height →
      strictlyBetween (deriveViewportRect vw vh minSize maxSize pos 0).height
        (deriveViewportRect vw vh minSize maxSize pos 1).height
        (deriveViewportRect vw vh minSize maxSize pos t).height) := by
  have lerpify : ∀ f : ℚ → ℚ, (∀ s, f s = f 0 + (f 1 - f 0) * s) →
      (f 0 ≠ f 1 → strictlyBetween (f 0) (f 1) (f t)) := by
    intro f hf hne
    rw [hf t]
    exact lerp_strictlyBetween (f 0) (f 1) t h0 h1 hne
  refine ⟨?_, ?_, ?_, ?_, ?_, ?_⟩
  · ext <;> simp [deriveViewportRect] <;> ring
  · ext <;> simp [deriveViewportRect, dockedRect, endSizeOf_eq_clamp] <;> ring
  · exact lerpify (fun s => (deriveViewportRect vw vh minSize maxSize pos s).x)
      (by intro s; simp [deriveViewportRect]; ring)
  · exact lerpify (fun s => (deriveViewportRect vw vh minSize maxSize pos s).y)
      (by intro s; simp [deriveViewportRect]; ring)
  · exact lerpify
      (fun s => (deriveViewportRect vw vh minSize maxSize pos s).width)
      (by intro s; simp [deriveViewportRect])
  · exact lerpify
      (fun s => (deriveViewportRect vw vh minSize maxSize pos s).height)
      (by intro s; simp [deriveViewportRect])

/-- C4 witness: on a 1920x1080 window with the repository's docked
configuration (right/top anchor, offsets 30 and -110, sizes 150 to 300), at
`t = 1/2` the width is strictly between its extremes 1920 and 300. -/
theorem deriveViewportRect_spec_witness :
    strictlyBetween
      (deriveViewportRect 1920 1080 150 300 ⟨"right", "top", 30, -110⟩ 0).width
      (deriveViewportRect 1920 1080 150 300 ⟨"right", "top", 30, -110⟩ 1).width
      (deriveViewportRect 1920 1080 150 300 ⟨"right", "top", 30, -110⟩
        (1/2)).width :=
  (deriveViewportRect_spec 1920 1080 150 300 ⟨"right", "top", 30, -110⟩ (1/2)
    (by norm_num) (by norm_num)).2.2.2.2.1
    (by norm_num [deriveViewportRect, endSizeOf])

/-! ### Network Simulation (src/js/brain-hero.js) -/

/-- A point in the model's 3D coordinate space. -/
structure Vec3 where
  x : ℚ
  y : ℚ
  z : ℚ
  deriving DecidableEq, Repr

instance : Inhabited Vec3 := ⟨⟨0, 0, 0⟩⟩

/-- Squared Euclidean distance between two points. -/
def sqDist (p q : Vec3) : ℚ :=
  (p.x - q.x) ^ 2 + (p.y - q.y) ^ 2 + (p.z - q.z) ^ 2

/-- Embedding of the comparison `p.distanceTo(q) < d` (used with
`minNodeDistance` in the sampling loop and `connectionDistance` in the edge
loop): equivalent squared-distance form avoiding the irrational square root. -/
def distLt (p q : Vec3) (d : ℚ) : Prop := 0 < d ∧ sqDist p q < d * d

instance (p q : Vec3) (d : ℚ) : Decidable (distLt p q d) := by
  unfold distLt
  infer_instance

theorem sqDist_nonneg (p q : Vec3) : 0 ≤ sqDist p q := by
  unfold sqDist
  positivity

theorem sqDist_comm (p q : Vec3) : sqDist p q = sqDist q p := by
  unfold sqDist
  ring

/-- Bridging lemma: the embedded comparison coincides with the Euclidean
distance comparison over the reals. -/
theorem distLt_iff_sqrt (p q : Vec3) (d : ℚ) :
    Real.sqrt ((sqDist p q : ℚ) : ℝ) < (d : ℝ) ↔ distLt p q d := by
  constructor
  · intro h
    have hd : (0:ℝ) < (d:ℝ) := lt_of_le_of_lt (Real.sqrt_nonneg _) h
    have hlt := (Real.sqrt_lt' hd).mp h
    refine ⟨by exact_mod_cast hd, ?_⟩
    have : ((sqDist p q : ℚ) : ℝ) < ((d * d : ℚ) : ℝ) := by push_cast; nlinarith
    exact_mod_cast this
  · rintro ⟨hd, hlt⟩
    have hd' : (0:ℝ) < (d:ℝ) := by exact_mod_cast hd
    refine (Real.sqrt_lt' hd').mpr ?_
    have : ((sqDist p q : ℚ) : ℝ) < ((d * d : ℚ) : ℝ) := by exact_mod_cast hlt
    push_cast at this ⊢
    nlinarith

/-- A neuron: surface position plus adjacency (indices into the node list),
mirroring `{ position, neighbors }` in `generateNeuralNetwork`. -/
structure Node where
  position : Vec3
  neighbors : List ℕ
  deriving DecidableEq, Repr

instance : Inhabited Node := ⟨⟨default, []⟩⟩

/-- Embedding of the per-node rejection-sampling loop of
`generateNeuralNetwork` (brain-hero.js lines 600-621): draw from the sampler
stream, accept as soon as no existing node is within `minDist`, and accept the
last draw when the attempt budget is exhausted.  Returns the accepted position
and the advanced stream counter. -/
def sampleLoop (sampler : ℕ → Vec3) (ns : List Node) (minDist : ℚ) :
    ℕ → ℕ → Vec3 × ℕ
  | ctr, 0 => (sampler ctr, ctr + 1)
  | ctr, fuel + 1 =>
    let p := sampler ctr
    if ns.any (fun nd => decide (distLt p nd.position minDist)) then
      sampleLoop sampler ns minDist (ctr + 1) fuel
    else (p, ctr + 1)

/-- Embedding of the inner `for (let i = 0; i < countForMesh; i++)` loop:
append `k` sampled nodes (each with an empty neighbor list) to the running
node list. -/
def addNodes (sampler : ℕ → Vec3) (minDist : ℚ) :
    ℕ → ℕ → List Node → List Node × ℕ
  | 0, ctr, ns => (ns, ctr)
  | k + 1, ctr, ns =>
    let r := sampleLoop sampler ns minDist ctr 29
    addNodes sampler minDist k r.2 (ns ++ [{ position := r.1, neighbors := [] }])

/-- `countForMesh = Math.round(nodeCount * (meshAreas[index] / totalArea))`
(brain-hero.js line 598), taken as a natural number of loop iterations. -/
def countForMesh (nodeCount : ℕ) (area totalArea : ℚ) : ℕ :=
  (round ((nodeCount : ℚ) * (area / totalArea))).toNat

/-- Embedding of the outer `samplerMeshes.forEach` loop of node generation:
one rejection-sampled batch per mesh, sized by the area-proportional rounded
count. -/
def generateNodesAux (samplers : ℕ → ℕ → Vec3) (minDist : ℚ) (nodeCount : ℕ)
    (totalArea : ℚ) : List ℚ → ℕ → List Node → List Node
  | [], _, ns => ns
  | a :: rest, i, ns =>
    generateNodesAux samplers minDist nodeCount totalArea rest (i + 1)
      (addNodes (samplers i) minDist (countForMesh nodeCount a totalArea) 0 ns).1

/-- Node-generation phase of `generateNeuralNetwork` (brain-hero.js lines
537-628): given the per-mesh surface areas, produce the sampled node list
(`samplerMeshes.length === 0` guard included). -/
def generateNetworkNodes (samplers : ℕ → ℕ → Vec3) (minDist : ℚ)
    (nodeCount : ℕ) (meshAreas : List ℚ) : List Node :=
  if meshAreas.isEmpty then []
  else generateNodesAux samplers minDist nodeCount meshAreas.sum meshAreas 0 []

theorem addNodes_length (sampler : ℕ → Vec3) (minDist : ℚ) (k ctr : ℕ)
    (ns : List Node) :
    ((addNodes sampler minDist k ctr ns).1).length = ns.length + k := by
  induction k generalizing ctr ns with
  | zero => simp [addNodes]
  | succ j ih =>
    rw [addNodes, ih]
    simp
    omega

theorem generateNodesAux_length (samplers : ℕ → ℕ → Vec3) (minDist : ℚ)
    (nodeCount : ℕ) (totalArea : ℚ) (L : List ℚ) (i : ℕ) (ns : List Node) :
    (generateNodesAux samplers minDist nodeCount totalArea L i ns).length
      = ns.length + (L.map (fun a => countForMesh nodeCount a totalArea)).sum := by
  induction L generalizing i ns with
  | nil => simp [generateNodesAux]
  | cons a rest ih =>
    rw [generateNodesAux, ih, addNodes_length]
    simp
    omega

/-- C5 (amended): the Build operation creates exactly
`round(nodeCount * area_i / totalArea)` nodes for the `i`-th mesh — met even
when rejection attempts are exhausted, for any sampler — so the total is the
sum of the per-mesh rounded counts; for a single-mesh model with positive
area that total equals `nodeCount` exactly. -/
theorem generateNetworkNodes_length (samplers : ℕ → ℕ → Vec3) (minDist : ℚ)
    (nodeCount : ℕ) (meshAreas : List ℚ) (a : ℚ) (ha : 0 < a) :
    (generateNetworkNodes samplers minDist nodeCount meshAreas).length
      = (meshAreas.map
          (fun ar => countForMesh nodeCount ar meshAreas.sum)).sum ∧
    (generateNetworkNodes samplers minDist nodeCount [a]).length = nodeCount := by
  constructor
  · unfold generateNetworkNodes
    split
    · rename_i h
      rw [List.isEmpty_iff] at h
      subst h
      simp
    · rw [generateNodesAux_length]
      simp
  · unfold generateNetworkNodes
    rw [if_neg (by simp)]
    rw [generateNodesAux_length]
    simp [countForMesh, div_self (ne_of_gt ha)]

/-- C5 witness: a single mesh of area 2 with `nodeCount = 5` yields exactly
5 nodes. -/
theorem generateNetworkNodes_length_witness :
    (generateNetworkNodes (fun _ _ => default) (3/10) 5 [2]).length = 5 :=
  (generateNetworkNodes_length (fun _ _ => default) (3/10) 5 [2] 2
    (by norm_num)).2

/-- C5 counterexample: for a model of three equal-area meshes and
`nodeCount = 1`, each mesh's rounded share is `round(1/3) = 0`, so the build
creates 0 nodes in total — the configured `nodeCount` of 1 is not met. -/
theorem generateNetworkNodes_count_ne_nodeCount :
    (generateNetworkNodes (fun _ _ => default) (3/10) 1 [1, 1, 1]).length ≠ 1 := by
  rw [generateNetworkNodes, if_neg (by simp), generateNodesAux_length]
  have hc : countForMesh 1 1 ((1 + (1 + 1) : ℚ)) = 0 := by
    unfold countForMesh
    norm_num [round_eq]
  simp [hc]

theorem distLt_symm (p q : Vec3) (d : ℚ) : distLt p q d ↔ distLt q p d := by
  unfold distLt
  rw [sqDist_comm]

/-- `nodes[k].position` as array indexing over the node-position list. -/
def posAt (ps : List Vec3) (k : ℕ) : Vec3 := ps.getD k default

/-- The ordered index pairs `(i, j)` with `i < j < n`, in the iteration order
of the double loop `for (i...) for (j = i + 1...)` of `generateNeuralNetwork`
(brain-hero.js lines 650-651). -/
def allPairs (n : ℕ) : List (ℕ × ℕ) :=
  (List.range n).flatMap
    (fun i => (List.range' (i + 1) (n - (i + 1))).map (fun j => (i, j)))

theorem mem_allPairs (n i j : ℕ) : (i, j) ∈ allPairs n ↔ i < j ∧ j < n := by
  unfold allPairs
  simp only [List.mem_flatMap, List.mem_map, List.mem_range, List.mem_range'_1,
    Prod.mk.injEq]
  constructor
  · rintro ⟨a, ha, b, hb, rfl, rfl⟩
    omega
  · intro h
    exact ⟨i, by omega, j, by omega, rfl, rfl⟩

/-- `nodes[i].neighbors.push(j); nodes[j].neighbors.push(i)`
(brain-hero.js lines 654-655), on an adjacency map from node index to
neighbor list. -/
def addEdgeFn (adj : ℕ → List ℕ) (i j : ℕ) : ℕ → List ℕ :=
  fun k => if k = i then adj k ++ [j] else if k = j then adj k ++ [i] else adj k

/-- One iteration of the edge double loop (brain-hero.js lines 652-662):
record the edge iff `dist < connectionDistance`. -/
def buildAdjStep (ps : List Vec3) (c : ℚ) (adj : ℕ → List ℕ)
    (pr : ℕ × ℕ) : ℕ → List ℕ :=
  if distLt (posAt ps pr.1) (posAt ps pr.2) c then addEdgeFn adj pr.1 pr.2
  else adj

/-- Embedding of the connection-graph construction of `generateNeuralNetwork`
(brain-hero.js lines 650-664): the double loop folded over all index pairs,
starting from empty neighbor lists. -/
def buildAdj (ps : List Vec3) (c : ℚ) : ℕ → List ℕ :=
  (allPairs ps.length).foldl (buildAdjStep ps c) (fun _ => [])

theorem mem_addEdgeFn (adj : ℕ → List ℕ) (i j k m : ℕ) :
    m ∈ addEdgeFn adj i j k ↔
      m ∈ adj k ∨ (k = i ∧ m = j) ∨ (k = j ∧ m = i) := by
  unfold addEdgeFn
  by_cases h1 : k = i <;> by_cases h2 : k = j <;>
    simp [h1, h2] <;> aesop

/-- Membership characterization of the edge double loop, by induction over
the remaining pair list. -/
theorem mem_foldl_buildAdjStep (ps : List Vec3) (c : ℚ) (L : List (ℕ × ℕ))
    (adj : ℕ → List ℕ) (k m : ℕ) :
    m ∈ (L.foldl (buildAdjStep ps c) adj) k ↔
      m ∈ adj k ∨ (((k, m) ∈ L ∨ (m, k) ∈ L) ∧
        distLt (posAt ps k) (posAt ps m) c) := by
  induction L generalizing adj with
  | nil => simp
  | cons pr rest ih =>
    obtain ⟨i, j⟩ := pr
    rw [List.foldl_cons, ih]
    unfold buildAdjStep
    by_cases hcl : distLt (posAt ps i) (posAt ps j) c
    · rw [if_pos hcl, mem_addEdgeFn]
      simp only [List.mem_cons, Prod.mk.injEq]
      constructor
      · rintro ((hm | ⟨rfl, rfl⟩ | ⟨rfl, rfl⟩) | ⟨hmem, hd⟩)
        · exact Or.inl hm
        · exact Or.inr ⟨Or.inl (Or.inl ⟨rfl, rfl⟩), hcl⟩
        · exact Or.inr ⟨Or.inr (Or.inl ⟨rfl, rfl⟩),
            (distLt_symm _ _ _).mp hcl⟩
        · exact Or.inr ⟨by tauto, hd⟩
      · rintro (hm | ⟨(⟨rfl, rfl⟩ | hr) | (⟨rfl, rfl⟩ | hr), hd⟩)
        · exact Or.inl (Or.inl hm)
        · exact Or.inl (Or.inr (Or.inl ⟨rfl, rfl⟩))
        · exact Or.inr ⟨Or.inl hr, hd⟩
        · exact Or.inl (Or.inr (Or.inr ⟨rfl, rfl⟩))
        · exact Or.inr ⟨Or.inr hr, hd⟩
    · rw [if_neg hcl]
      simp only [List.mem_cons, Prod.mk.injEq]
      constructor
      · rintro (hm | ⟨hmem, hd⟩)
        · exact Or.inl hm
        · exact Or.inr ⟨by tauto, hd⟩
      · rintro (hm | ⟨(⟨rfl, rfl⟩ | hr) | (⟨rfl, rfl⟩ | hr), hd⟩)
        · exact Or.inl hm
        · exact absurd hd hcl
        · exact Or.inr ⟨Or.inl hr, hd⟩
        · exact absurd ((distLt_symm _ _ _).mp hd) hcl
        · exact Or.inr ⟨Or.inr hr, hd⟩

/-- C6: after the connection-graph construction, for distinct in-range
indices `a`, `b`: `b` is in `a`'s neighbor list iff `a` is in `b`'s, and iff
the Euclidean distance between the two node positions is strictly below the
configured `connectionDistance`. -/
theorem buildAdj_spec (ps : List Vec3) (c : ℚ) (a b : ℕ)
    (ha : a < ps.length) (hb : b < ps.length) (hab : a ≠ b) :
    (b ∈ buildAdj ps c a ↔ a ∈ buildAdj ps c b) ∧
    (b ∈ buildAdj ps c a ↔
      Real.sqrt ((sqDist (posAt ps a) (posAt ps b) : ℚ) : ℝ) < (c : ℝ)) := by
  have hchar : ∀ k m : ℕ, m ∈ buildAdj ps c k ↔
      (((k, m) ∈ allPairs ps.length ∨ (m, k) ∈ allPairs ps.length) ∧
        distLt (posAt ps k) (posAt ps m) c) := by
    intro k m
    unfold buildAdj
    rw [mem_foldl_buildAdjStep]
    simp
  constructor
  · rw [hchar, hchar, mem_allPairs, mem_allPairs]
    constructor
    · rintro ⟨hp, hd⟩
      exact ⟨by tauto, (distLt_symm _ _ _).mp hd⟩
    · rintro ⟨hp, hd⟩
      exact ⟨by tauto, (distLt_symm _ _ _).mp hd⟩
  · rw [hchar, distLt_iff_sqrt]
    constructor
    · rintro ⟨_, hd⟩
      exact hd
    · intro hd
      refine ⟨?_, hd⟩
      rw [mem_allPairs, mem_allPairs]
      omega

/-- C6 witness: a three-node instance (two nodes within distance 0.3, one far
away) instantiating the symmetry/threshold characterization at indices 0, 1. -/
theorem buildAdj_spec_witness :
    (1 ∈ buildAdj [⟨0,0,0⟩, ⟨1/10,0,0⟩, ⟨5,5,5⟩] (3/10) 0 ↔
      0 ∈ buildAdj [⟨0,0,0⟩, ⟨1/10,0,0⟩, ⟨5,5,5⟩] (3/10) 1) ∧
    (1 ∈ buildAdj [⟨0,0,0⟩, ⟨1/10,0,0⟩, ⟨5,5,5⟩] (3/10) 0 ↔
      Real.sqrt ((sqDist (posAt [⟨0,0,0⟩, ⟨1/10,0,0⟩, ⟨5,5,5⟩] 0)
          (posAt [⟨0,0,0⟩, ⟨1/10,0,0⟩, ⟨5,5,5⟩] 1) : ℚ) : ℝ)
        < ((3/10 : ℚ) : ℝ)) :=
  buildAdj_spec [⟨0,0,0⟩, ⟨1/10,0,0⟩, ⟨5,5,5⟩] (3/10) 0 1
    (by simp) (by simp) (by simp)

/-! ### Signals (src/js/brain-hero.js) -/

/-- A traveling signal particle, mirroring the record built in `spawnSignal`:
`{ currentPos, targetNodeIdx, pathStart, pathEnd, progress, speed }`. -/
structure Signal where
  currentPos : Vec3
  targetNodeIdx : ℕ
  pathStart : Vec3
  pathEnd : Vec3
  progress : ℚ
  speed : ℚ
  deriving DecidableEq, Repr

/-- `nodes[k]` array access. -/
def nodeAt (nodes : List Node) (k : ℕ) : Node := nodes.getD k default

/-- `lerpVectors(a, b, t)`: componentwise `a + (b - a) * t`. -/
def lerpVec (a b : Vec3) (t : ℚ) : Vec3 :=
  { x := a.x + (b.x - a.x) * t
    y := a.y + (b.y - a.y) * t
    z := a.z + (b.z - a.z) * t }

/-- The retry loop of `spawnSignal` (brain-hero.js lines 707-712): while the
drawn node has no neighbors and attempts remain, redraw a random node index.
`pick` is the random stream; draws are taken mod the node count. -/
def findStartIdx (nodes : List Node) (pick : ℕ → ℕ) : ℕ → ℕ → ℕ
  | idx, 0 => idx
  | idx, fuel + 1 =>
    if (nodeAt nodes idx).neighbors = [] then
      findStartIdx nodes pick (pick fuel % nodes.length) fuel
    else idx

/-- Embedding of `spawnSignal` (brain-hero.js lines 703-728).  Randomness is
passed in as oracles: `pick` for the node draws, `pickNbr` for the neighbor
draw, `rnd ∈ [0,1)` for the speed randomization.  Returns `none` exactly when
the function returns early without writing `signals[index]`. -/
def spawnSignal (nodes : List Node) (pick : ℕ → ℕ) (pickNbr : ℕ)
    (rnd signalSpeed : ℚ) : Option Signal :=
  if nodes.length = 0 then none
  else
    let startNodeIdx := findStartIdx nodes pick (pick 100 % nodes.length) 100
    let startNode := nodeAt nodes startNodeIdx
    if startNode.neighbors = [] then none
    else
      let targetNodeIdx :=
        startNode.neighbors.getD (pickNbr % startNode.neighbors.length) 0
      let targetNode := nodeAt nodes targetNodeIdx
      some { currentPos := startNode.position
             targetNodeIdx := targetNodeIdx
             pathStart := startNode.position
             pathEnd := targetNode.position
             progress := 0
             speed := rnd * (1/2) + signalSpeed }

/-- Embedding of the per-signal advance step of `animate` (brain-hero.js
lines 1338-1367): advance `progress`; on arrival pick a random neighbor of
the arrival node (or respawn at a dead end — on a failed respawn the slot
keeps the advanced signal); finally interpolate `currentPos`. -/
def advanceSignal (nodes : List Node) (delta : ℚ) (pickNbr : ℕ)
    (spawnPick : ℕ → ℕ) (spawnNbrPick : ℕ) (spawnRnd signalSpeed : ℚ)
    (sig : Signal) : Signal :=
  let p := sig.progress + sig.speed * delta
  if 1 ≤ p then
    let currentNodeIdx := sig.targetNodeIdx
    let currentNode := nodeAt nodes currentNodeIdx
    if currentNode.neighbors ≠ [] then
      let nextNodeIdx :=
        currentNode.neighbors.getD (pickNbr % currentNode.neighbors.length) 0
      let nextNode := nodeAt nodes nextNodeIdx
      { currentPos := lerpVec currentNode.position nextNode.position 0
        targetNodeIdx := nextNodeIdx
        pathStart := currentNode.position
        pathEnd := nextNode.position
        progress := 0
        speed := sig.speed }
    else
      match spawnSignal nodes spawnPick spawnNbrPick spawnRnd signalSpeed with
      | some s => s
      | none => { sig with progress := p
                           currentPos := lerpVec sig.pathStart sig.pathEnd p }
  else { sig with progress := p
                  currentPos := lerpVec sig.pathStart sig.pathEnd p }

/-- Embedding of the `signalSpeed` branch of `updateSimulationParams`
(brain-hero.js lines 873-880): each live signal's speed is re-randomized to
`Math.random() * 0.5 + simulationParams.signalSpeed` (the `variation` local
is dead code and never applied). -/
def updateSignalSpeed (newSignalSpeed rnd : ℚ) (sig : Signal) : Signal :=
  { sig with speed := rnd * (1/2) + newSignalSpeed }

/-- The signal's path is an existing edge of the current graph: `pathStart`
is the position of a node whose neighbor list contains `targetNodeIdx`, and
`pathEnd` is `nodes[targetNodeIdx].position`. -/
def SignalOK (nodes : List Node) (sig : Signal) : Prop :=
  sig.targetNodeIdx < nodes.length ∧
  ∃ src : ℕ, src < nodes.length ∧
    sig.targetNodeIdx ∈ (nodeAt nodes src).neighbors ∧
    sig.pathStart = (nodeAt nodes src).position ∧
    sig.pathEnd = (nodeAt nodes sig.targetNodeIdx).position

/-- Graph wellformedness: every stored neighbor index is in range. -/
def GraphWF (nodes : List Node) : Prop :=
  ∀ k, k < nodes.length → ∀ j ∈ (nodeAt nodes k).neighbors, j < nodes.length

theorem getD_mem_of_lt {α : Type} (l : List α) (i : ℕ) (d : α)
    (h : i < l.length) : l.getD i d ∈ l := by
  rw [List.getD_eq_getElem l d h]
  exact List.getElem_mem h

theorem findStartIdx_lt (nodes : List Node) (pick : ℕ → ℕ)
    (hn : 0 < nodes.length) :
    ∀ fuel idx, idx < nodes.length →
      findStartIdx nodes pick idx fuel < nodes.length := by
  intro fuel
  induction fuel with
  | zero =>
    intro idx h
    simpa [findStartIdx] using h
  | succ f ih =>
    intro idx h
    rw [findStartIdx]
    split
    · exact ih _ (Nat.mod_lt _ hn)
    · exact h

/-- Auxiliary: full characterization of a successful `spawnSignal`. -/
theorem spawnSignal_some_elim (nodes : List Node) (pick : ℕ → ℕ)
    (pickNbr : ℕ) (rnd s : ℚ) (sp : Signal)
    (h : spawnSignal nodes pick pickNbr rnd s = some sp) :
    ∃ idx : ℕ, idx < nodes.length ∧ (nodeAt nodes idx).neighbors ≠ [] ∧
      sp = { currentPos := (nodeAt nodes idx).position
             targetNodeIdx := (nodeAt nodes idx).neighbors.getD
               (pickNbr % (nodeAt nodes idx).neighbors.length) 0
             pathStart := (nodeAt nodes idx).position
             pathEnd := (nodeAt nodes ((nodeAt nodes idx).neighbors.getD
               (pickNbr % (nodeAt nodes idx).neighbors.length) 0)).position
             progress := 0
             speed := rnd * (1/2) + s } := by
  unfold spawnSignal at h
  by_cases h0 : nodes.length = 0
  · rw [if_pos h0] at h
    cases h
  · rw [if_neg h0] at h
    dsimp only at h
    by_cases hnb : (nodeAt nodes
        (findStartIdx nodes pick (pick 100 % nodes.length) 100)).neighbors = []
    · rw [if_pos hnb] at h
      cases h
    · rw [if_neg hnb] at h
      refine ⟨findStartIdx nodes pick (pick 100 % nodes.length) 100,
        findStartIdx_lt nodes pick (Nat.pos_of_ne_zero h0) 100 _
          (Nat.mod_lt _ (Nat.pos_of_ne_zero h0)), hnb, ?_⟩
      exact ((Option.some.injEq _ _).mp h).symm

/-- Auxiliary: a successful spawn yields a valid-edge signal. -/
theorem spawnSignal_some_ok (nodes : List Node) (pick : ℕ → ℕ)
    (pickNbr : ℕ) (rnd s : ℚ) (sp : Signal) (hwf : GraphWF nodes)
    (h : spawnSignal nodes pick pickNbr rnd s = some sp) :
    SignalOK nodes sp := by
  obtain ⟨idx, hidx, hnb, rfl⟩ := spawnSignal_some_elim nodes pick pickNbr rnd s sp h
  have hlen : 0 < (nodeAt nodes idx).neighbors.length :=
    List.length_pos.mpr hnb
  have hmem : (nodeAt nodes idx).neighbors.getD
      (pickNbr % (nodeAt nodes idx).neighbors.length) 0
      ∈ (nodeAt nodes idx).neighbors :=
    getD_mem_of_lt _ _ _ (Nat.mod_lt _ hlen)
  exact ⟨hwf idx hidx _ hmem, idx, hidx, hmem, rfl, rfl⟩

/-- Auxiliary: the per-frame step preserves path validity. -/
theorem advanceSignal_ok (nodes : List Node) (delta : ℚ) (pickNbr : ℕ)
    (spawnPick : ℕ → ℕ) (spawnNbrPick : ℕ) (spawnRnd s : ℚ) (sig : Signal)
    (hwf : GraphWF nodes) (hok : SignalOK nodes sig) :
    SignalOK nodes
      (advanceSignal nodes delta pickNbr spawnPick spawnNbrPick spawnRnd s sig) := by
  unfold advanceSignal
  dsimp only
  split
  · split
    · rename_i hp hnb
      obtain ⟨htgt, src, hsrc, hmem, hps, hpe⟩ := hok
      have hlen : 0 < (nodeAt nodes sig.targetNodeIdx).neighbors.length :=
        List.length_pos.mpr hnb
      have hmem' : (nodeAt nodes sig.targetNodeIdx).neighbors.getD
          (pickNbr % (nodeAt nodes sig.targetNodeIdx).neighbors.length) 0
          ∈ (nodeAt nodes sig.targetNodeIdx).neighbors :=
        getD_mem_of_lt _ _ _ (Nat.mod_lt _ hlen)
      exact ⟨hwf sig.targetNodeIdx htgt _ hmem', sig.targetNodeIdx, htgt,
        hmem', rfl, rfl⟩
    · rcases hsp : spawnSignal nodes spawnPick spawnNbrPick spawnRnd s with _ | s'
      · simp only [hsp]
        exact hok
      · simp only [hsp]
        exact spawnSignal_some_ok nodes spawnPick spawnNbrPick spawnRnd s s' hwf hsp
  · exact hok

/-- C7: signal paths are always existing graph edges — a successful spawn
establishes the invariant, the per-frame step preserves it, and on arrival
(`progress >= 1`) at a node with neighbors the next leg starts at the arrival
node's position, ends at one of its neighbors' positions, and has its
progress reset to 0. -/
theorem signal_path_validity (nodes : List Node) (delta : ℚ)
    (pick spawnPick : ℕ → ℕ) (pickNbr spawnNbrPick : ℕ)
    (rnd spawnRnd s : ℚ) (sig sp : Signal) (hwf : GraphWF nodes) :
    (spawnSignal nodes pick pickNbr rnd s = some sp → SignalOK nodes sp) ∧
    (SignalOK nodes sig →
      SignalOK nodes
        (advanceSignal nodes delta pickNbr spawnPick spawnNbrPick spawnRnd s
          sig)) ∧
    (1 ≤ sig.progress + sig.speed * delta →
      (nodeAt nodes sig.targetNodeIdx).neighbors ≠ [] →
      (advanceSignal nodes delta pickNbr spawnPick spawnNbrPick spawnRnd s
          sig).pathStart = (nodeAt nodes sig.targetNodeIdx).position ∧
      (advanceSignal nodes delta pickNbr spawnPick spawnNbrPick spawnRnd s
          sig).progress = 0 ∧
      ∃ j ∈ (nodeAt nodes sig.targetNodeIdx).neighbors,
        (advanceSignal nodes delta pickNbr spawnPick spawnNbrPick spawnRnd s
          sig).targetNodeIdx = j ∧
        (advanceSignal nodes delta pickNbr spawnPick spawnNbrPick spawnRnd s
          sig).pathEnd = (nodeAt nodes j).position) := by
  refine ⟨fun h => spawnSignal_some_ok nodes pick pickNbr rnd s sp hwf h,
    fun hok => advanceSignal_ok nodes delta pickNbr spawnPick spawnNbrPick
      spawnRnd s sig hwf hok, ?_⟩
  intro hp hnb
  have hlen : 0 < (nodeAt nodes sig.targetNodeIdx).neighbors.length :=
    List.length_pos.mpr hnb
  unfold advanceSignal
  dsimp only
  rw [if_pos hp, if_pos hnb]
  exact ⟨rfl, rfl,
    (nodeAt nodes sig.targetNodeIdx).neighbors.getD
      (pickNbr % (nodeAt nodes sig.targetNodeIdx).neighbors.length) 0,
    getD_mem_of_lt _ _ _ (Nat.mod_lt _ hlen), rfl, rfl⟩

/-- C7 witness: a two-node graph with a single symmetric edge; a signal
arriving at node 1 keeps a valid edge after the advance step. -/
theorem signal_path_validity_witness :
    SignalOK [⟨⟨0,0,0⟩, [1]⟩, ⟨⟨1,0,0⟩, [0]⟩]
      (advanceSignal [⟨⟨0,0,0⟩, [1]⟩, ⟨⟨1,0,0⟩, [0]⟩] (16/1000) 0
        (fun _ => 0) 0 0 (8/10) ⟨⟨0,0,0⟩, 1, ⟨0,0,0⟩, ⟨1,0,0⟩, 1, 1⟩) :=
  (signal_path_validity [⟨⟨0,0,0⟩, [1]⟩, ⟨⟨1,0,0⟩, [0]⟩] (16/1000)
    (fun _ => 0) (fun _ => 0) 0 0 0 0 (8/10)
    ⟨⟨0,0,0⟩, 1, ⟨0,0,0⟩, ⟨1,0,0⟩, 1, 1⟩
    ⟨⟨0,0,0⟩, 1, ⟨0,0,0⟩, ⟨1,0,0⟩, 0, 1⟩
    (by unfold GraphWF; decide)).2.1
    ⟨by decide, 0, by decide, by decide, rfl, rfl⟩

/-- C10: with the random draw `rnd ∈ [0,1)`, a signal's speed is
`rnd * 0.5 + signalSpeed`, hence lies in `[signalSpeed, signalSpeed + 0.5)` —
both at spawn time and after a live `signalSpeed` update re-randomizes it. -/
theorem signal_speed_band (nodes : List Node) (pick : ℕ → ℕ) (pickNbr : ℕ)
    (rnd s : ℚ) (sig sp : Signal) (h0 : 0 ≤ rnd) (h1 : rnd < 1) :
    (spawnSignal nodes pick pickNbr rnd s = some sp →
      s ≤ sp.speed ∧ sp.speed < s + 1/2) ∧
    (s ≤ (updateSignalSpeed s rnd sig).speed ∧
      (updateSignalSpeed s rnd sig).speed < s + 1/2) := by
  have hb : s ≤ rnd * (1/2) + s ∧ rnd * (1/2) + s < s + 1/2 :=
    ⟨by nlinarith, by nlinarith⟩
  constructor
  · intro h
    obtain ⟨idx, -, -, rfl⟩ :=
      spawnSignal_some_elim nodes pick pickNbr rnd s sp h
    exact hb
  · exact hb

/-- C10 witness: base speed `0.8` and draw `1/4` give an updated speed inside
the band `[0.8, 1.3)`. -/
theorem signal_speed_band_witness :
    (8/10 : ℚ) ≤ (updateSignalSpeed (8/10) (1/4)
        ⟨⟨0,0,0⟩, 0, ⟨0,0,0⟩, ⟨0,0,0⟩, 0, 0⟩).speed ∧
    (updateSignalSpeed (8/10) (1/4)
        ⟨⟨0,0,0⟩, 0, ⟨0,0,0⟩, ⟨0,0,0⟩, 0, 0⟩).speed < 8/10 + 1/2 :=
  (signal_speed_band [] (fun _ => 0) 0 (1/4) (8/10)
    ⟨⟨0,0,0⟩, 0, ⟨0,0,0⟩, ⟨0,0,0⟩, 0, 0⟩
    ⟨⟨0,0,0⟩, 0, ⟨0,0,0⟩, ⟨0,0,0⟩, 0, 0⟩
    (by norm_num) (by norm_num)).2

/-! ### Pointer Interaction (src/js/brain-hero.js) -/

/-- The drawable objects traversed by `brainGroup.traverse` in `onClick`:
the model's named region meshes (`isMesh` true) and the three simulation
drawables — `nodeParticles` and `signalParticles` are `THREE.Points`,
`connectionLines` is a `THREE.LineSegments`; none of those are meshes. -/
inductive SceneObj where
  | regionMesh (name : String)
  | nodeParticlesObj
  | signalParticlesObj
  | connectionLinesObj
  deriving DecidableEq, Repr

/-- `object.isMesh` of three.js: true exactly for `THREE.Mesh` instances. -/
def SceneObj.isMesh : SceneObj → Bool
  | .regionMesh _ => true
  | .nodeParticlesObj => false
  | .signalParticlesObj => false
  | .connectionLinesObj => false

/-- The raycast candidate collection of `onClick` (brain-hero.js lines
1043-1048): `object.isMesh && object !== nodeParticles &&
object !== signalParticles`. -/
def clickCandidates (objs : List SceneObj) : List SceneObj :=
  objs.filter (fun o => o.isMesh
    && !(o == SceneObj.nodeParticlesObj)
    && !(o == SceneObj.signalParticlesObj))

/-- `getNormalizedMouseCoordinates` (brain-hero.js lines 1021-1025). -/
def getNormalizedMouseCoordinates (rect : Rect) (clientX clientY : ℚ) :
    ℚ × ℚ :=
  (((clientX - rect.x) / rect.width) * 2 - 1,
   -((clientY - rect.y) / rect.height) * 2 + 1)

/-- Embedding of the dispatch logic of `onClick` (brain-hero.js lines
1027-1071): early return in mini mode or when the pointer lies outside
the current viewport rectangle, otherwise raycast against the candidate
objects (the raycaster is an oracle choosing the nearest hit among the
candidates) and look the hit's name up in the section map.  The result is
the section id dispatched via `brain-section-clicked`, if any. -/
def onClick (miniMode : Bool) (rect : Rect) (clientX clientY : ℚ)
    (objs : List SceneObj) (raycastHit : List SceneObj → Option SceneObj)
    (sectionMap : String → Option String) : Option String :=
  if miniMode then none
  else if clientX < rect.x ∨ clientX > rect.x + rect.width ∨
      clientY < rect.y ∨ clientY > rect.y + rect.height then none
  else
    match raycastHit (clickCandidates objs) with
    | none => none
    | some (SceneObj.regionMesh name) => sectionMap name
    | some _ => none

/-- Embedding of the click/drag decision of `onMouseUp` (brain-hero.js lines
1014-1019): the raycast-click is dispatched iff the pointer-up position is
within Euclidean distance 5 of the pointer-down position. -/
def onMouseUpDispatchesClick (downX downY upX upY : ℚ) : Prop :=
  (upX - downX) ^ 2 + (upY - downY) ^ 2 < 5 * 5

instance (downX downY upX upY : ℚ) :
    Decidable (onMouseUpDispatchesClick downX downY upX upY) := by
  unfold onMouseUpDispatchesClick
  infer_instance

/-- C8: the pointer position is normalized relative to the current viewport
rectangle exactly as `nx = (px - rect.x)/rect.width * 2 - 1`,
`ny = -((py - rect.y)/rect.height) * 2 + 1`; clicks outside the rectangle
dispatch nothing; and the raycast candidates are exactly the region meshes —
the node/signal particle drawables and the connection-line drawable are never
hit-tested. -/
theorem onClick_spec (miniMode : Bool) (rect : Rect) (clientX clientY : ℚ)
    (objs : List SceneObj) (raycastHit : List SceneObj → Option SceneObj)
    (sectionMap : String → Option String) :
    getNormalizedMouseCoordinates rect clientX clientY
      = (((clientX - rect.x) / rect.width) * 2 - 1,
         -((clientY - rect.y) / rect.height) * 2 + 1) ∧
    ((clientX < rect.x ∨ clientX > rect.x + rect.width ∨
        clientY < rect.y ∨ clientY > rect.y + rect.height) →
      onClick miniMode rect clientX clientY objs raycastHit sectionMap
        = none) ∧
    (∀ o ∈ clickCandidates objs, ∃ nm, o = SceneObj.regionMesh nm) ∧
    (∀ nm, SceneObj.regionMesh nm ∈ objs →
      SceneObj.regionMesh nm ∈ clickCandidates objs) ∧
    SceneObj.nodeParticlesObj ∉ clickCandidates objs ∧
    SceneObj.signalParticlesObj ∉ clickCandidates objs ∧
    SceneObj.connectionLinesObj ∉ clickCandidates objs := by
  refine ⟨rfl, ?_, ?_, ?_, ?_, ?_, ?_⟩
  · intro houtside
    cases miniMode
    · simp [onClick, houtside]
    · simp [onClick]
  · intro o ho
    rw [clickCandidates, List.mem_filter] at ho
    cases o with
    | regionMesh nm => exact ⟨nm, rfl⟩
    | nodeParticlesObj => simp [SceneObj.isMesh] at ho
    | signalParticlesObj => simp [SceneObj.isMesh] at ho
    | connectionLinesObj => simp [SceneObj.isMesh] at ho
  · intro nm hmem
    rw [clickCandidates, List.mem_filter]
    exact ⟨hmem, by simp [SceneObj.isMesh]⟩
  · intro h
    rw [clickCandidates, List.mem_filter] at h
    simp [SceneObj.isMesh] at h
  · intro h
    rw [clickCandidates, List.mem_filter] at h
    simp [SceneObj.isMesh] at h
  · intro h
    rw [clickCandidates, List.mem_filter] at h
    simp [SceneObj.isMesh] at h

/-- C8 witness: with a 100x100 viewport rectangle at the origin, a click at
(200, 50) lies outside and dispatches nothing. -/
theorem onClick_spec_witness :
    onClick false ⟨0, 0, 100, 100⟩ 200 50
      [SceneObj.regionMesh "Brain_Part_06_BRAIN_TEXTURE_blinn2_0",
       SceneObj.nodeParticlesObj, SceneObj.signalParticlesObj,
       SceneObj.connectionLinesObj]
      (fun l => l.head?) (fun _ => some "section-projects") = none :=
  (onClick_spec false ⟨0, 0, 100, 100⟩ 200 50
    [SceneObj.regionMesh "Brain_Part_06_BRAIN_TEXTURE_blinn2_0",
     SceneObj.nodeParticlesObj, SceneObj.signalParticlesObj,
     SceneObj.connectionLinesObj]
    (fun l => l.head?) (fun _ => some "section-projects")).2.1
    (by norm_num)

/-- C9: `onMouseUp` dispatches the raycast-click iff the Euclidean distance
between the pointer-down and pointer-up positions is strictly below 5 pixels;
the (100,100)-to-(102,101) gesture is a click, the (100,100)-to-(120,100)
gesture is a drag. -/
theorem onMouseUp_click_iff (downX downY upX upY : ℚ) :
    (onMouseUpDispatchesClick downX downY upX upY ↔
      Real.sqrt ((((upX - downX) ^ 2 + (upY - downY) ^ 2 : ℚ)) : ℝ) < 5) ∧
    onMouseUpDispatchesClick 100 100 102 101 ∧
    ¬ onMouseUpDispatchesClick 100 100 120 100 := by
  refine ⟨?_, by norm_num [onMouseUpDispatchesClick],
    by norm_num [onMouseUpDispatchesClick]⟩
  have h5 : (0:ℝ) < 5 := by norm_num
  rw [Real.sqrt_lt' h5]
  unfold onMouseUpDispatchesClick
  rw [show ((5:ℝ) ^ 2) = ((25 : ℚ) : ℝ) by norm_num, Rat.cast_lt]
  norm_num

/-! ### Supporting facts for the node-count counterexample -/

/-- `subVectors`: componentwise difference (edge vectors of a triangle). -/
def subVec (a b : Vec3) : Vec3 := ⟨a.x - b.x, a.y - b.y, a.z - b.z⟩

/-- `crossVectors`: the 3D cross product used by the mesh-area computation
(brain-hero.js lines 565-567). -/
def crossVec (a b : Vec3) : Vec3 :=
  ⟨a.y * b.z - a.z * b.y, a.z * b.x - a.x * b.z, a.x * b.y - a.y * b.x⟩

/-- Squared vector length, so that `length = sqrt (sqLen v)`. -/
def sqLen (v : Vec3) : ℚ := v.x ^ 2 + v.y ^ 2 + v.z ^ 2

/-- The unit mesh areas used in the node-count counterexample are realizable:
the code's area formula `0.5 * (edge1 × edge2).length` evaluates to exactly 1
on the triangle with vertices (0,0,0), (2,0,0), (0,1,0), so a model made of
three such single-triangle meshes has areas 1, 1, 1. -/
theorem counterexample_triangle_area :
    (1/2 : ℝ) * Real.sqrt ((sqLen (crossVec
        (subVec ⟨2, 0, 0⟩ ⟨0, 0, 0⟩) (subVec ⟨0, 1, 0⟩ ⟨0, 0, 0⟩)) : ℚ) : ℝ)
      = 1 := by
  have h : (sqLen (crossVec (subVec ⟨2, 0, 0⟩ ⟨0, 0, 0⟩)
      (subVec ⟨0, 1, 0⟩ ⟨0, 0, 0⟩)) : ℚ) = 4 := by
    norm_num [subVec, crossVec, sqLen]
  rw [h, show ((4:ℚ):ℝ) = (2:ℝ) ^ 2 by norm_num,
    Real.sqrt_sq (by norm_num : (0:ℝ) ≤ 2)]
  norm_num
